import Mathlib

/-!
# Verification of the Shopify OAuth connect subsystem

Shallow embedding of `backend/shopify_auth.py` and the OAuth-related
handlers of `backend/main.py`, together with proofs of the specified
properties.  Strings are modelled by Lean `String` / `List Char`;
bytes by `Nat` values below 256 with explicit `% 2^w` truncation where
the source relies on 32-bit arithmetic (inside SHA-256).  Python's
`str.strip` is modelled with CPython's full whitespace set;
`str.lower` is modelled at the ASCII level, and the one theorem whose
truth depends on lower-casing restricts itself to ASCII labels, where
the model coincides with Python.
-/

/-! ## Byte-level helpers: UTF-8 and hex -/

/-- UTF-8 encoding of one Unicode code point, as bytes (each `< 256`). -/
def utf8EncodeCp (n : Nat) : List Nat :=
  if n < 0x80 then [n]
  else if n < 0x800 then
    [0xC0 ||| (n >>> 6), 0x80 ||| (n &&& 0x3F)]
  else if n < 0x10000 then
    [0xE0 ||| (n >>> 12), 0x80 ||| ((n >>> 6) &&& 0x3F), 0x80 ||| (n &&& 0x3F)]
  else
    [0xF0 ||| (n >>> 18), 0x80 ||| ((n >>> 12) &&& 0x3F),
     0x80 ||| ((n >>> 6) &&& 0x3F), 0x80 ||| (n &&& 0x3F)]

/-- `str.encode()`: UTF-8 bytes of a string. -/
def strBytes (s : String) : List Nat :=
  (s.data.map (fun c => utf8EncodeCp c.toNat)).flatten

/-- Lowercase hex digit for a nibble. -/
def hexDigit (n : Nat) : Char :=
  if n < 10 then Char.ofNat (48 + n) else Char.ofNat (87 + n)

/-- Lowercase hex rendering of a byte list (as `hexdigest` produces). -/
def toHex (bs : List Nat) : String :=
  ⟨(bs.map (fun b => [hexDigit ((b / 16) % 16), hexDigit (b % 16)])).flatten⟩

/-! ## SHA-256 (FIPS 180-4), over byte lists -/

/-- 2^32, the modulus for all SHA-256 word arithmetic. -/
def M32 : Nat := 4294967296

/-- Right rotation of a 32-bit word. -/
def rotr (n x : Nat) : Nat := ((x >>> n) ||| (x <<< (32 - n))) % M32

/-- SHA-256 round constants. -/
def shaK : List Nat :=
  [1116352408, 1899447441, 3049323471, 3921009573,
   961987163, 1508970993, 2453635748, 2870763221,
   3624381080, 310598401, 607225278, 1426881987,
   1925078388, 2162078206, 2614888103, 3248222580,
   3835390401, 4022224774, 264347078, 604807628,
   770255983, 1249150122, 1555081692, 1996064986,
   2554220882, 2821834349, 2952996808, 3210313671,
   3336571891, 3584528711, 113926993, 338241895,
   666307205, 773529912, 1294757372, 1396182291,
   1695183700, 1986661051, 2177026350, 2456956037,
   2730485921, 2820302411, 3259730800, 3345764771,
   3516065817, 3600352804, 4094571909, 275423344,
   430227734, 506948616, 659060556, 883997877,
   958139571, 1322822218, 1537002063, 1747873779,
   1955562222, 2024104815, 2227730452, 2361852424,
   2428436474, 2756734187, 3204031479, 3329325298]

/-- SHA-256 initial hash values. -/
def shaH0 : List Nat :=
  [1779033703, 3144134277, 1013904242, 2773480762,
   1359893119, 2600822924, 528734635, 1541459225]

/-- `k` big-endian bytes of `n`. -/
def beBytes (k : Nat) (n : Nat) : List Nat :=
  match k with
  | 0 => []
  | k + 1 => beBytes k (n >>> 8) ++ [n % 256]

/-- SHA-256 padding: append `0x80`, zeros, and the 64-bit bit length. -/
def shaPad (m : List Nat) : List Nat :=
  m ++ 0x80 :: List.replicate ((119 - m.length % 64) % 64) 0 ++ beBytes 8 (8 * m.length)

/-- Split off the first `n` bytes (structurally, so the kernel can reduce it). -/
def splitChunk : Nat → List Nat → (List Nat × List Nat)
  | 0, l => ([], l)
  | _ + 1, [] => ([], [])
  | n + 1, b :: l =>
      let p := splitChunk n l
      (b :: p.1, p.2)

/-- Split a byte list into 64-byte blocks, with a structural fuel counter. -/
def chunks64F : Nat → List Nat → List (List Nat)
  | 0, l => [l]
  | fuel + 1, l =>
      if l.length ≤ 64 then [l]
      else
        let p := splitChunk 64 l
        p.1 :: chunks64F fuel p.2

/-- Split a byte list into 64-byte blocks. -/
def chunks64 (m : List Nat) : List (List Nat) := chunks64F m.length m

/-- Pack bytes into 32-bit big-endian words. -/
def wordsOf : List Nat → List Nat
  | b0 :: b1 :: b2 :: b3 :: rest =>
      ((b0 <<< 24) ||| (b1 <<< 16) ||| (b2 <<< 8) ||| b3) :: wordsOf rest
  | _ => []

/-- Next word of the SHA-256 message schedule, from the words so far. -/
def nextWord (w : List Nat) : Nat :=
  let n := w.length
  let w15 := w.getD (n - 15) 0
  let w2 := w.getD (n - 2) 0
  let w16 := w.getD (n - 16) 0
  let w7 := w.getD (n - 7) 0
  let s0 := (rotr 7 w15) ^^^ (rotr 18 w15) ^^^ (w15 >>> 3)
  let s1 := (rotr 17 w2) ^^^ (rotr 19 w2) ^^^ (w2 >>> 10)
  (w16 + s0 + w7 + s1) % M32

/-- Extend the message schedule by `k` further words. -/
def schedExtend (w : List Nat) : Nat → List Nat
  | 0 => w
  | k + 1 => schedExtend (w ++ [nextWord w]) k

/-- Working state of the SHA-256 compression function. -/
structure ShaState where
  a : Nat
  b : Nat
  c : Nat
  d : Nat
  e : Nat
  f : Nat
  g : Nat
  h : Nat
deriving Repr, DecidableEq

/-- One round of the SHA-256 compression function. -/
def shaRound (st : ShaState) (kw : Nat × Nat) : ShaState :=
  let S1 := (rotr 6 st.e) ^^^ (rotr 11 st.e) ^^^ (rotr 25 st.e)
  let ch := (st.e &&& st.f) ^^^ ((st.e ^^^ 4294967295) &&& st.g)
  let temp1 := (st.h + S1 + ch + kw.1 + kw.2) % M32
  let S0 := (rotr 2 st.a) ^^^ (rotr 13 st.a) ^^^ (rotr 22 st.a)
  let maj := (st.a &&& st.b) ^^^ (st.a &&& st.c) ^^^ (st.b &&& st.c)
  let temp2 := (S0 + maj) % M32
  ⟨(temp1 + temp2) % M32, st.a, st.b, st.c, (st.d + temp1) % M32, st.e, st.f, st.g⟩

/-- Compress one 64-byte block into the running hash values. -/
def shaBlock (hs : List Nat) (block : List Nat) : List Nat :=
  let w := schedExtend (wordsOf block) 48
  let fin := (shaK.zip w).foldl shaRound
    ⟨hs.getD 0 0, hs.getD 1 0, hs.getD 2 0, hs.getD 3 0,
     hs.getD 4 0, hs.getD 5 0, hs.getD 6 0, hs.getD 7 0⟩
  [(hs.getD 0 0 + fin.a) % M32, (hs.getD 1 0 + fin.b) % M32,
   (hs.getD 2 0 + fin.c) % M32, (hs.getD 3 0 + fin.d) % M32,
   (hs.getD 4 0 + fin.e) % M32, (hs.getD 5 0 + fin.f) % M32,
   (hs.getD 6 0 + fin.g) % M32, (hs.getD 7 0 + fin.h) % M32]

/-- SHA-256 digest (32 bytes) of a byte list. -/
def sha256Bytes (m : List Nat) : List Nat :=
  (((chunks64 (shaPad m)).foldl shaBlock shaH0).map (beBytes 4)).flatten

/-- `hashlib.sha256(s.encode()).hexdigest()`. -/
def sha256Hex (s : String) : String := toHex (sha256Bytes (strBytes s))

/-! ## HMAC-SHA256 (RFC 2104), block size 64 -/

/-- HMAC-SHA256 digest (32 bytes) over byte lists. -/
def hmacSha256 (key msg : List Nat) : List Nat :=
  let k0 := if 64 < key.length then sha256Bytes key else key
  let k := k0 ++ List.replicate (64 - k0.length) 0
  let ipad := k.map (fun b => b ^^^ 0x36)
  let opad := k.map (fun b => b ^^^ 0x5c)
  sha256Bytes (opad ++ sha256Bytes (ipad ++ msg))

/-- `hmac.new(secret.encode(), message.encode(), hashlib.sha256).hexdigest()`. -/
def hmacSha256Hex (secret message : String) : String :=
  toHex (hmacSha256 (strBytes secret) (strBytes message))


/-! ## Character and string helpers (ASCII models of Python `str` methods) -/

/-- The whitespace `str.strip()` removes: CPython's
`Py_UNICODE_ISSPACE` set — `\t`-`\r`, `\x1c`-`\x1f`, space, `\x85`,
`\xa0`, `U+1680`, `U+2000`-`U+200A`, `U+2028`, `U+2029`, `U+202F`,
`U+205F`, `U+3000`. -/
def isSpaceC (c : Char) : Bool :=
  decide ((9 ≤ c.toNat ∧ c.toNat ≤ 13) ∨ (28 ≤ c.toNat ∧ c.toNat ≤ 32) ∨
    c.toNat = 133 ∨ c.toNat = 160 ∨ c.toNat = 5760 ∨
    (8192 ≤ c.toNat ∧ c.toNat ≤ 8202) ∨ c.toNat = 8232 ∨ c.toNat = 8233 ∨
    c.toNat = 8239 ∨ c.toNat = 8287 ∨ c.toNat = 12288)

/-- ASCII lower-casing of one character (`str.lower()`, ASCII fragment). -/
def asciiLower (c : Char) : Char :=
  if 65 ≤ c.toNat ∧ c.toNat ≤ 90 then Char.ofNat (c.toNat + 32) else c

/-- `str.lower()` over a character list. -/
def toLowerL (s : List Char) : List Char := s.map asciiLower

/-- `str.strip()` over a character list (whitespace per `isSpaceC`). -/
def trimL (s : List Char) : List Char :=
  ((s.dropWhile isSpaceC).reverse.dropWhile isSpaceC).reverse

/-- `str.rstrip(x)` for a single strip character. -/
def rstripC (x : Char) (s : List Char) : List Char :=
  (s.reverse.dropWhile (fun c => c == x)).reverse

/-- Is `pre` an initial segment of `s`? -/
def leadsWith : List Char → List Char → Bool
  | [], _ => true
  | _ :: _, [] => false
  | a :: pre, b :: s => a == b && leadsWith pre s

/-- Python's `pat in s` substring test. -/
def containsL (pat : List Char) : List Char → Bool
  | [] => leadsWith pat []
  | c :: r => leadsWith pat (c :: r) || containsL pat r

/-- `s.split(pat)[0]`: the part of `s` before the first occurrence of
`pat` (all of `s` when there is none); `pat` is assumed non-empty. -/
def beforeFirstL (pat : List Char) : List Char → List Char
  | [] => []
  | c :: r => if leadsWith pat (c :: r) then [] else c :: beforeFirstL pat r

/-- `str.split(pat)` with Python's non-overlapping left-to-right matches,
driven by a structural fuel counter (`fuel ≥ s.length` suffices). -/
def splitOnF (pat : List Char) : Nat → List Char → List Char → List (List Char)
  | _, [], acc => [acc.reverse]
  | 0, s, acc => [acc.reverse ++ s]
  | fuel + 1, c :: r, acc =>
      if leadsWith pat (c :: r) ∧ pat ≠ [] then
        acc.reverse :: splitOnF pat fuel ((c :: r).drop pat.length) []
      else
        splitOnF pat fuel r (c :: acc)

/-- `s.split(pat)` for non-empty `pat`. -/
def splitOnL (pat s : List Char) : List (List Char) := splitOnF pat s.length s []

/-- `s.split(pat)[-1]`: the part after the last occurrence of `pat`. -/
def afterLastL (pat s : List Char) : List Char := (splitOnL pat s).getLastD []

/-! ## Python `dict` with string keys, as an association list

The embedding keeps insertion order exactly as CPython does: assignment
to a present key updates in place, to a fresh key appends. -/

/-- `k in d` for a dict. -/
def containsKey (m : List (String × String)) (k : String) : Bool :=
  m.any (fun p => p.1 == k)

/-- `d.get(k)`. -/
def dictGet (m : List (String × String)) (k : String) : Option String :=
  (m.find? (fun p => p.1 == k)).map (fun p => p.2)

/-- `d[k] = v`. -/
def dictSet (m : List (String × String)) (k v : String) : List (String × String) :=
  if containsKey m k then m.map (fun p => if p.1 == k then (k, v) else p)
  else m ++ [(k, v)]

/-- `d.pop(k, None)`: the looked-up value together with the dict with
the key removed. -/
def dictPop (m : List (String × String)) (k : String) : Option String × List (String × String) :=
  (dictGet m k, m.filter (fun p => p.1 != k))

/-! ## `shopify_auth.normalize_shop` and `is_valid_shop_hostname` -/

/-- The characters of `".myshopify.com"`. -/
def suffixL : List Char := ".myshopify.com".data

/-- The characters of `"//"`. -/
def dblSlashL : List Char := "//".data

/-- `normalize_shop` from `backend/shopify_auth.py`:
`s = shop.strip().lower()`; empty input maps to `""`; if `".myshopify.com" in s`
then `s.split(".myshopify.com")[0].split("//")[-1].rstrip("/") + ".myshopify.com"`,
else `s + ".myshopify.com"`. -/
def normalize_shop (shop : String) : String :=
  let s := toLowerL (trimL shop.data)
  if s = [] then ""
  else if containsL suffixL s then
    ⟨rstripC '/' (afterLastL dblSlashL (beforeFirstL suffixL s)) ++ suffixL⟩
  else ⟨s ++ suffixL⟩

/-- `[a-zA-Z0-9]`. -/
def isAlnumC (c : Char) : Bool :=
  (48 ≤ c.toNat && c.toNat ≤ 57) || (65 ≤ c.toNat && c.toNat ≤ 90) || (97 ≤ c.toNat && c.toNat ≤ 122)

/-- `[a-zA-Z0-9\-]`. -/
def inLabelClass (c : Char) : Bool := isAlnumC c || c == '-'

/-- Python's `$` anchor (no `re.MULTILINE`): end of string, or just
before one final newline. -/
def dollarAnchor (s : List Char) : Bool := s == [] || s == [Char.ofNat 10]

/-- Match `\.myshopify\.com$` at the head of `s`. -/
def litSuffixEnd (s : List Char) : Bool :=
  leadsWith suffixL s && dollarAnchor (s.drop suffixL.length)

/-- Match `[a-zA-Z0-9\-]*\.myshopify\.com$` at the head of `s`.  The
literal starts with `.`, which is outside the starred class, so trying
the literal first at each position is equivalent to greedy matching
with backtracking. -/
def starThenSuffix : List Char → Bool
  | [] => litSuffixEnd []
  | c :: r => litSuffixEnd (c :: r) || (inLabelClass c && starThenSuffix r)

/-- `is_valid_shop_hostname` from `backend/shopify_auth.py`:
`bool(re.match(r"^[a-zA-Z0-9][a-zA-Z0-9\-]*\.myshopify\.com$", shop))`. -/
def is_valid_shop_hostname (shop : String) : Bool :=
  match shop.data with
  | [] => false
  | c :: r => isAlnumC c && starThenSuffix r

/-! ## Signature verification -/

/-- `hmac.compare_digest` on strings: constant-time equality; the value
computed is plain equality. -/
def compare_digest (a b : String) : Bool := a == b

/-- Insert into a `le`-sorted list, before the first strictly larger
element (the placement Python's stable `sorted` produces). -/
def insLe {α : Type} (le : α → α → Bool) (a : α) : List α → List α
  | [] => [a]
  | b :: r => if le a b then a :: b :: r else b :: insLe le a r

/-- Stable insertion sort, modelling Python's `sorted`. -/
def isortBy {α : Type} (le : α → α → Bool) : List α → List α
  | [] => []
  | a :: r => insLe le a (isortBy le r)

/-- Python string `<`: lexicographic comparison by code point. -/
def strListLt : List Char → List Char → Bool
  | [], [] => false
  | [], _ :: _ => true
  | _ :: _, [] => false
  | a :: as, b :: bs => a.toNat < b.toNat || (a == b && strListLt as bs)

/-- `a < b` on strings, as Python compares them. -/
def strLt (a b : String) : Bool := strListLt a.data b.data

/-- `a <= b` on strings. -/
def strLe (a b : String) : Bool := strLt a b || a == b

/-- Ascending tuple comparison, as `sorted` uses on `(key, value)` pairs. -/
def pairLe (p q : String × String) : Bool :=
  strLt p.1 q.1 || (p.1 == q.1 && strLe p.2 q.2)

/-- Comparison of pairs by key alone. -/
def keyLe (p q : String × String) : Bool := strLe p.1 q.1

/-- `verify_hmac` from `backend/shopify_auth.py`: reject when `hmac` is
absent; otherwise recompute HMAC-SHA256 over the remaining parameters,
`sorted(rest.items())`, joined as `k=v` with `&`, and compare digests. -/
def verify_hmac (query_params : List (String × String)) (secret : String) : Bool :=
  if containsKey query_params "hmac" = false then false
  else
    match dictGet query_params "hmac" with
    | none => false
    | some received =>
      let rest := query_params.filter (fun p => p.1 != "hmac")
      let message := String.intercalate "&" ((isortBy pairLe rest).map (fun p => p.1 ++ "=" ++ p.2))
      compare_digest (hmacSha256Hex secret message) received

/-- The message the spec describes for `verify_hmac`: all entries other
than `hmac`, sorted by key, joined as `key=value` pairs separated by `&`. -/
def specHmacMessage (query_params : List (String × String)) : String :=
  String.intercalate "&"
    ((isortBy keyLe (query_params.filter (fun p => p.1 != "hmac"))).map (fun p => p.1 ++ "=" ++ p.2))

/-- Modelled from the spec: `verify_hmac_raw_query` is called by the
callback handler in `backend/main.py` but its definition is not among
the provided sources.  Per §4.3 it verifies against the raw, undecoded
query string: the `hmac=...` component is removed from the `&`-separated
components without any percent-decoding, the remaining components are
sorted and rejoined, and the recomputed HMAC-SHA256 hex digest is
compared with the supplied value (absent signature: reject). -/
def verify_hmac_raw_query (raw_query secret : String) : Bool :=
  let comps : List String := (splitOnL ['&'] raw_query.data).map (fun l => (⟨l⟩ : String))
  match comps.filter (fun p => leadsWith "hmac=".data p.data) with
  | [] => false
  | h :: _ =>
    let received := h.drop 5
    let rest := comps.filter (fun p => !(leadsWith "hmac=".data p.data))
    let message := String.intercalate "&" (isortBy strLe rest)
    compare_digest (hmacSha256Hex secret message) received

/-! ## Authorize-URL building and the state registry -/

/-- A byte `urllib.parse.quote_plus` leaves unescaped: `[A-Za-z0-9_.~-]`. -/
def unreservedByte (b : Nat) : Bool :=
  (65 ≤ b && b ≤ 90) || (97 ≤ b && b ≤ 122) || (48 ≤ b && b ≤ 57) ||
  b == 45 || b == 46 || b == 95 || b == 126

/-- Uppercase hex digit for a nibble (as `quote` emits). -/
def hexDigitU (n : Nat) : Char :=
  if n < 10 then Char.ofNat (48 + n) else Char.ofNat (55 + n)

/-- `quote_plus` for a single UTF-8 byte. -/
def quotePlusByte (b : Nat) : List Char :=
  if b == 32 then ['+']
  else if unreservedByte b then [Char.ofNat b]
  else ['%', hexDigitU ((b / 16) % 16), hexDigitU (b % 16)]

/-- `urllib.parse.quote_plus` with `safe=''`. -/
def quote_plus (s : String) : String := ⟨((strBytes s).map quotePlusByte).flatten⟩

/-- `urllib.parse.urlencode` over a parameter list in insertion order. -/
def urlencode (params : List (String × String)) : String :=
  String.intercalate "&" (params.map (fun p => quote_plus p.1 ++ "=" ++ quote_plus p.2))

/-- `SCOPES` from `backend/shopify_auth.py`. -/
def SCOPES : String := "read_orders"

/-- `build_authorize_url` from `backend/shopify_auth.py`.  The module
state `_oauth_states` is passed and returned explicitly; the fresh
nonce produced by `secrets.token_hex(16)` is the explicit `state`
argument.  Returns `((url, state), updated states)`. -/
def build_authorize_url (states : List (String × String)) (shop clientId redirectUri : String)
    (state : String) : (String × String) × List (String × String) :=
  let redirectUri : String := ⟨rstripC '/' redirectUri.data⟩
  let states1 := dictSet states state shop
  let params := [("client_id", clientId), ("scope", SCOPES),
                 ("redirect_uri", redirectUri), ("state", state)]
  (("https://" ++ shop ++ "/admin/oauth/authorize?" ++ urlencode params, state), states1)

/-! ## Token exchange and the credential store -/

/-- The upstream reply to the token-exchange POST: HTTP status and the
parsed JSON object (`none` models a body `r.json()` cannot parse). -/
structure HttpResponse where
  status : Nat
  jsonBody : Option (List (String × String))
deriving Repr, DecidableEq

/-- `exchange_code_for_token` from `backend/shopify_auth.py`, with the
network call abstracted into the `resp` argument: `r.raise_for_status()`
raises for any non-2xx status, `r.json()` raises on a malformed body,
and `data["access_token"]` raises `KeyError` when the key is missing;
each exception surfaces as `.error`. -/
def exchange_code_for_token (resp : HttpResponse) : Except String String :=
  if resp.status < 200 ∨ 300 ≤ resp.status then
    .error ("HTTP status error " ++ toString resp.status)
  else
    match resp.jsonBody with
    | none => .error "invalid JSON body"
    | some data =>
      match dictGet data "access_token" with
      | some t => .ok t
      | none => .error "KeyError: access_token"

/-- `save_token` from `backend/shopify_auth.py`: read the store, assign
`data[shop] = access_token`, write it back. -/
def save_token (stores : List (String × String)) (shop access_token : String) :
    List (String × String) :=
  dictSet stores shop access_token

/-- Modelled from the spec: `remove_shop` is called by `api_disconnect`
in `backend/main.py` but its definition is not among the provided
sources.  Per §4.6, `remove(shop) -> bool` returns true iff a credential
existed and was removed. -/
def remove_shop (stores : List (String × String)) (shop : String) :
    Bool × List (String × String) :=
  if containsKey stores shop then (true, stores.filter (fun p => p.1 != shop))
  else (false, stores)

/-! ## The HTTP handlers of `backend/main.py` -/

/-- Outcome of a handler: an `HTTPException` or a 302 redirect. -/
inductive HttpResult where
  | err (status : Nat) (detail : String)
  | redirect (url : String)
deriving Repr, DecidableEq

/-- The shared mutable state of the service: the in-memory
`_oauth_states` dict and the file-backed `stores.json` dict. -/
structure AppState where
  oauthStates : List (String × String)
  stores : List (String × String)
deriving Repr, DecidableEq

/-- Python truthiness of an optional configuration string (`None` and
`""` are falsy). -/
def truthy : Option String → Bool
  | none => false
  | some s => !(s == "")

/-- One inbound callback request, together with the configuration it is
served under and the upstream exchange outcome function (`exch shop
code` abstracts the network side of `exchange_code_for_token`). -/
structure CbInput where
  clientId : Option String
  clientSecret : Option String
  exch : String → String → Except String String
  params : List (String × String)
  rawQuery : String

/-- `auth_shopify_callback` from `backend/main.py`: config check, HMAC
check (raw query or reconstructed map), state pop, shop comparison,
code check, exchange, persist, redirect. -/
def auth_shopify_callback (c : CbInput) (st : AppState) : HttpResult × AppState :=
  if truthy c.clientId = false || truthy c.clientSecret = false then
    (.err 503 "Shopify app not configured.", st)
  else
    let secret := c.clientSecret.getD ""
    let ok := verify_hmac_raw_query c.rawQuery secret || verify_hmac c.params secret
    if ok = false then (.err 400 "Invalid HMAC", st)
    else
      let popped :=
        match dictGet c.params "state" with
        | none => (none, st.oauthStates)
        | some t => dictPop st.oauthStates t
      let st1 : AppState := ⟨popped.2, st.stores⟩
      let incoming := normalize_shop ((dictGet c.params "shop").getD "")
      match popped.1 with
      | none => (.err 400 "Invalid or expired state. Try connecting again.", st1)
      | some shop =>
        if shop = "" || !(shop == incoming) then
          (.err 400 "Invalid or expired state. Try connecting again.", st1)
        else
          match dictGet c.params "code" with
          | none => (.err 400 "Missing code", st1)
          | some code =>
            if code = "" then (.err 400 "Missing code", st1)
            else
              match c.exch shop code with
              | .error e => (.err 502 ("Could not get token: " ++ e), st1)
              | .ok token =>
                  (.redirect "/connect?connected=1", ⟨st1.oauthStates, save_token st1.stores shop token⟩)

/-- Run a sequence of callback requests, threading the state. -/
def runCbs (cs : List CbInput) (st : AppState) : AppState :=
  cs.foldl (fun s c => (auth_shopify_callback c s).2) st

/-- Outcome of `POST /api/disconnect`. -/
inductive DisconnectResult where
  | ok (shop : String)
  | notFound (detail : String)
deriving Repr, DecidableEq

/-- `api_disconnect` from `backend/main.py`: normalize the requested
shop, `remove_shop`, 404 when nothing was removed, else 200 with the
normalized shop. -/
def api_disconnect (stores : List (String × String)) (reqShop : String) :
    DisconnectResult × List (String × String) :=
  let normalized := normalize_shop reqShop
  let r := remove_shop stores normalized
  if r.1 = false then (.notFound "Store not found or not connected.", stores)
  else (.ok normalized, r.2)

/-- A character of a canonical (lowercase) shop label:
`[a-z0-9]` or `-`. -/
def canonChar (c : Char) : Bool :=
  (97 ≤ c.toNat && c.toNat ≤ 122) || (48 ≤ c.toNat && c.toNat ≤ 57) || c == '-'

/-! ## Concrete inputs used to instantiate the callback theorems -/

/-- Query parameters carrying a correctly signed callback for shop
`acme` with state `tok` under secret `sec`. -/
def sampleHmacParams : List (String × String) :=
  [("code", "c0de"), ("hmac", hmacSha256Hex "sec" "code=c0de&shop=acme&state=tok"),
   ("shop", "acme"), ("state", "tok")]

/-- A configured callback request with the signed sample parameters. -/
def sampleCallback (ex : String → String → Except String String) : CbInput :=
  ⟨some "cid", some "sec", ex, sampleHmacParams, ""⟩

/-- Correctly signed parameters whose `shop` is `b`, for a state bound
to a different shop. -/
def mismatchParams : List (String × String) :=
  [("code", "c0de"), ("hmac", hmacSha256Hex "sec" "code=c0de&shop=b&state=tok"),
   ("shop", "b"), ("state", "tok")]

/-- A configured callback request with the mismatching signed parameters. -/
def mismatchCallback : CbInput :=
  ⟨some "cid", some "sec", fun _ _ => Except.ok "TOK", mismatchParams, ""⟩

/-! ## Lemmas about the dict model -/

theorem dictGet_eq_none_iff (m : List (String × String)) (k : String) :
    dictGet m k = none ↔ ∀ p ∈ m, p.1 ≠ k := by
  simp [dictGet, List.find?_eq_none]

theorem dictGet_cons_self (p : String × String) (m : List (String × String)) (k : String)
    (h : p.1 = k) : dictGet (p :: m) k = some p.2 := by
  rw [dictGet, List.find?_cons_of_pos _ (by simpa using h)]
  rfl

theorem dictGet_cons_ne (p : String × String) (m : List (String × String)) (k : String)
    (h : p.1 ≠ k) : dictGet (p :: m) k = dictGet m k := by
  rw [dictGet, List.find?_cons_of_neg _ (by simpa using h)]
  rfl

theorem dictGet_isSome_eq (m : List (String × String)) (k : String) :
    (dictGet m k).isSome = (List.find? (fun p => p.1 == k) m).isSome := by
  rw [dictGet]
  cases List.find? (fun p => p.1 == k) m <;> rfl

theorem containsKey_iff_isSome (m : List (String × String)) (k : String) :
    containsKey m k = true ↔ (dictGet m k).isSome = true := by
  rw [containsKey, List.any_eq_true, dictGet_isSome_eq, List.find?_isSome]

theorem dictGet_mapReplace_self (m : List (String × String)) (k v : String)
    (h : containsKey m k = true) :
    dictGet (m.map (fun p => if p.1 == k then (k, v) else p)) k = some v := by
  induction m with
  | nil => simp [containsKey] at h
  | cons p rest ih =>
    rw [List.map_cons]
    by_cases hpk : p.1 = k
    · rw [if_pos (by simpa using hpk)]
      exact dictGet_cons_self (k, v) _ k rfl
    · rw [if_neg (by simpa using hpk), dictGet_cons_ne p _ k hpk]
      have h' : containsKey rest k = true := by
        rw [containsKey] at h ⊢
        simpa [hpk] using h
      exact ih h'

theorem dictGet_mapReplace_ne (m : List (String × String)) (k v k' : String) (h : k' ≠ k) :
    dictGet (m.map (fun p => if p.1 == k then (k, v) else p)) k' = dictGet m k' := by
  induction m with
  | nil => rfl
  | cons p rest ih =>
    rw [List.map_cons]
    by_cases hpk : p.1 = k
    · rw [if_pos (by simpa using hpk), dictGet_cons_ne (k, v) _ k' (Ne.symm h),
          dictGet_cons_ne p rest k' (by rw [hpk]; exact Ne.symm h)]
      exact ih
    · rw [if_neg (by simpa using hpk)]
      by_cases hpk' : p.1 = k'
      · rw [dictGet_cons_self p _ k' hpk', dictGet_cons_self p rest k' hpk']
      · rw [dictGet_cons_ne p _ k' hpk', dictGet_cons_ne p rest k' hpk']
        exact ih

theorem dictGet_append_single_self (m : List (String × String)) (k v : String)
    (h : containsKey m k = false) :
    dictGet (m ++ [(k, v)]) k = some v := by
  induction m with
  | nil =>
    rw [List.nil_append]
    exact dictGet_cons_self (k, v) [] k rfl
  | cons p rest ih =>
    have hpk : p.1 ≠ k := by
      intro e
      rw [containsKey] at h
      simp [e] at h
    rw [List.cons_append, dictGet_cons_ne p _ k hpk]
    have h' : containsKey rest k = false := by
      rw [containsKey] at h ⊢
      simpa [hpk] using h
    exact ih h'

theorem dictGet_append_single_ne (m : List (String × String)) (k v k' : String) (h : k' ≠ k) :
    dictGet (m ++ [(k, v)]) k' = dictGet m k' := by
  induction m with
  | nil =>
    rw [List.nil_append, dictGet_cons_ne (k, v) [] k' (Ne.symm h)]
  | cons p rest ih =>
    rw [List.cons_append]
    by_cases hpk' : p.1 = k'
    · rw [dictGet_cons_self p _ k' hpk', dictGet_cons_self p rest k' hpk']
    · rw [dictGet_cons_ne p _ k' hpk', dictGet_cons_ne p rest k' hpk']
      exact ih

theorem dictGet_dictSet_self (m : List (String × String)) (k v : String) :
    dictGet (dictSet m k v) k = some v := by
  rw [dictSet]
  by_cases h : containsKey m k = true
  · rw [if_pos h]
    exact dictGet_mapReplace_self m k v h
  · rw [if_neg h]
    exact dictGet_append_single_self m k v (by simpa using h)

theorem dictGet_dictSet_ne (m : List (String × String)) (k v k' : String) (h : k' ≠ k) :
    dictGet (dictSet m k v) k' = dictGet m k' := by
  rw [dictSet]
  by_cases hc : containsKey m k = true
  · rw [if_pos hc]
    exact dictGet_mapReplace_ne m k v k' h
  · rw [if_neg hc]
    exact dictGet_append_single_ne m k v k' h

theorem dictGet_filterOut_self (m : List (String × String)) (k : String) :
    dictGet (m.filter (fun p => p.1 != k)) k = none := by
  rw [dictGet_eq_none_iff]
  intro p hp
  have := List.of_mem_filter hp
  simpa using this

theorem dictGet_filterOut_ne (m : List (String × String)) (k k' : String) (h : k' ≠ k) :
    dictGet (m.filter (fun p => p.1 != k)) k' = dictGet m k' := by
  induction m with
  | nil => rfl
  | cons p rest ih =>
    rw [List.filter_cons]
    by_cases hpk : p.1 = k
    · rw [if_neg (by simp [hpk]), dictGet_cons_ne p rest k' (by rw [hpk]; exact Ne.symm h)]
      exact ih
    · rw [if_pos (by simp [hpk])]
      by_cases hpk' : p.1 = k'
      · rw [dictGet_cons_self p _ k' hpk', dictGet_cons_self p rest k' hpk']
      · rw [dictGet_cons_ne p _ k' hpk', dictGet_cons_ne p rest k' hpk']
        exact ih

theorem dictGet_filter_none (m : List (String × String)) (k : String)
    (q : String × String → Bool) (h : dictGet m k = none) :
    dictGet (m.filter q) k = none := by
  rw [dictGet_eq_none_iff] at h ⊢
  intro p hp
  exact h p (List.mem_of_mem_filter hp)

theorem dictPop_fst (m : List (String × String)) (k : String) :
    (dictPop m k).1 = dictGet m k := rfl

theorem dictPop_snd (m : List (String × String)) (k : String) :
    (dictPop m k).2 = m.filter (fun p => p.1 != k) := rfl

theorem containsKey_eq_false (m : List (String × String)) (k : String)
    (h : dictGet m k = none) : containsKey m k = false := by
  cases hck : containsKey m k
  · rfl
  · exact absurd ((containsKey_iff_isSome m k).1 hck) (by rw [h]; simp)

theorem build_authorize_url_states (m : List (String × String))
    (shop clientId redirectUri tok : String) :
    (build_authorize_url m shop clientId redirectUri tok).2 = dictSet m tok shop := rfl

/-- C9: `save_token s t` makes a read of the store return `t` for `s`,
overwriting any earlier credential for `s`, and leaves the credential of
every other shop unchanged. -/
theorem save_token_overwrite_frame (stores : List (String × String)) (s t : String) :
    dictGet (save_token stores s t) s = some t ∧
    ∀ s', s' ≠ s → dictGet (save_token stores s t) s' = dictGet stores s' := by
  constructor
  · rw [save_token]
    exact dictGet_dictSet_self stores s t
  · intro s' hne
    rw [save_token]
    exact dictGet_dictSet_ne stores s t s' hne

theorem save_token_overwrite_frame_witness :
    dictGet (save_token [("acme.myshopify.com", "T0"), ("b.myshopify.com", "U")]
      "acme.myshopify.com" "T1") "acme.myshopify.com" = some "T1" ∧
    dictGet (save_token [("acme.myshopify.com", "T0"), ("b.myshopify.com", "U")]
      "acme.myshopify.com" "T1") "b.myshopify.com" =
      dictGet [("acme.myshopify.com", "T0"), ("b.myshopify.com", "U")] "b.myshopify.com" :=
  ⟨(save_token_overwrite_frame [("acme.myshopify.com", "T0"), ("b.myshopify.com", "U")]
      "acme.myshopify.com" "T1").1,
   (save_token_overwrite_frame [("acme.myshopify.com", "T0"), ("b.myshopify.com", "U")]
      "acme.myshopify.com" "T1").2 "b.myshopify.com" (by decide)⟩

/-- C2: after `build_authorize_url` records a state token for a shop,
the first pop of that token yields that shop, a second pop of the same
token yields `none`, and popping a token absent from the registry
yields `none`. -/
theorem state_issue_consume_roundtrip (m : List (String × String))
    (shop clientId redirectUri tok : String) :
    (dictPop (build_authorize_url m shop clientId redirectUri tok).2 tok).1 = some shop ∧
    (dictPop (dictPop (build_authorize_url m shop clientId redirectUri tok).2 tok).2 tok).1 = none ∧
    (∀ t', dictGet (build_authorize_url m shop clientId redirectUri tok).2 t' = none →
      (dictPop (build_authorize_url m shop clientId redirectUri tok).2 t').1 = none) := by
  refine ⟨?_, ?_, ?_⟩
  · rw [dictPop_fst, build_authorize_url_states]
    exact dictGet_dictSet_self m tok shop
  · rw [dictPop_fst, dictPop_snd, build_authorize_url_states]
    exact dictGet_filterOut_self _ tok
  · intro t' h
    rw [dictPop_fst]
    exact h

theorem state_issue_consume_roundtrip_witness :
    (dictPop (build_authorize_url [] "acme.myshopify.com" "cid" "https://app.example/"
        "tok").2 "tok").1 = some "acme.myshopify.com" ∧
    (dictPop (build_authorize_url [] "acme.myshopify.com" "cid" "https://app.example/"
        "tok").2 "never").1 = none :=
  ⟨(state_issue_consume_roundtrip [] "acme.myshopify.com" "cid" "https://app.example/" "tok").1,
   (state_issue_consume_roundtrip [] "acme.myshopify.com" "cid" "https://app.example/"
      "tok").2.2 "never" (by decide)⟩

/-- C8: disconnecting a shop with a stored credential removes exactly
that credential and answers 200 with the normalized shop; disconnecting
a shop without one (including a second disconnect) answers 404 and
leaves the store unchanged. -/
theorem api_disconnect_spec (stores : List (String × String)) (x : String) :
    ((∃ t, dictGet stores (normalize_shop x) = some t) →
      (api_disconnect stores x).1 = DisconnectResult.ok (normalize_shop x) ∧
      dictGet (api_disconnect stores x).2 (normalize_shop x) = none ∧
      (∀ k, k ≠ normalize_shop x →
        dictGet (api_disconnect stores x).2 k = dictGet stores k) ∧
      (api_disconnect (api_disconnect stores x).2 x).1 =
        DisconnectResult.notFound "Store not found or not connected.") ∧
    (dictGet stores (normalize_shop x) = none →
      (api_disconnect stores x).1 =
        DisconnectResult.notFound "Store not found or not connected." ∧
      (api_disconnect stores x).2 = stores) := by
  constructor
  · rintro ⟨t, ht⟩
    have hc : containsKey stores (normalize_shop x) = true :=
      (containsKey_iff_isSome _ _).2 (by rw [ht]; rfl)
    have hd : api_disconnect stores x =
        (DisconnectResult.ok (normalize_shop x),
         stores.filter (fun p => p.1 != normalize_shop x)) := by
      simp [api_disconnect, remove_shop, hc]
    have hnone : dictGet (stores.filter (fun p => p.1 != normalize_shop x))
        (normalize_shop x) = none := dictGet_filterOut_self _ _
    refine ⟨by rw [hd], by rw [hd]; exact hnone, ?_, ?_⟩
    · intro k hk
      rw [hd]
      exact dictGet_filterOut_ne stores (normalize_shop x) k hk
    · rw [hd]
      have hc2 : containsKey (stores.filter (fun p => p.1 != normalize_shop x))
          (normalize_shop x) = false := containsKey_eq_false _ _ hnone
      simp [api_disconnect, remove_shop, hc2]
  · intro h
    have hc : containsKey stores (normalize_shop x) = false := containsKey_eq_false _ _ h
    constructor <;> simp [api_disconnect, remove_shop, hc]

theorem api_disconnect_spec_witness :
    (api_disconnect [("acme.myshopify.com", "T")] "acme").1 =
      DisconnectResult.ok (normalize_shop "acme") ∧
    dictGet (api_disconnect [("acme.myshopify.com", "T")] "acme").2
      (normalize_shop "acme") = none ∧
    (api_disconnect (api_disconnect [("acme.myshopify.com", "T")] "acme").2 "acme").1 =
      DisconnectResult.notFound "Store not found or not connected." ∧
    (api_disconnect [] "acme").1 =
      DisconnectResult.notFound "Store not found or not connected." :=
  ⟨((api_disconnect_spec [("acme.myshopify.com", "T")] "acme").1 ⟨"T", by decide⟩).1,
   ((api_disconnect_spec [("acme.myshopify.com", "T")] "acme").1 ⟨"T", by decide⟩).2.1,
   ((api_disconnect_spec [("acme.myshopify.com", "T")] "acme").1 ⟨"T", by decide⟩).2.2.2,
   ((api_disconnect_spec [] "acme").2 (by decide)).1⟩

/-! ## Sorting lemmas for `verify_hmac` -/

theorem mem_insLe {α : Type} (le : α → α → Bool) (a x : α) (l : List α) :
    x ∈ insLe le a l ↔ x = a ∨ x ∈ l := by
  induction l with
  | nil => simp [insLe]
  | cons b r ih =>
    rw [insLe]
    by_cases h : le a b = true
    · simp [h]
    · rw [if_neg h]
      rw [List.mem_cons, ih, List.mem_cons]
      tauto

theorem mem_isortBy {α : Type} (le : α → α → Bool) (x : α) (l : List α) :
    x ∈ isortBy le l ↔ x ∈ l := by
  induction l with
  | nil => simp [isortBy]
  | cons a r ih =>
    rw [isortBy, mem_insLe, ih, List.mem_cons]

theorem insLe_pair_key (p : String × String) (l : List (String × String))
    (h : ∀ q ∈ l, q.1 ≠ p.1) : insLe pairLe p l = insLe keyLe p l := by
  induction l with
  | nil => rfl
  | cons b r ih =>
    have hb : b.1 ≠ p.1 := h b (List.mem_cons_self b r)
    have hne : ¬ p.1 = b.1 := Ne.symm hb
    have hle : pairLe p b = keyLe p b := by
      have hbeq : (p.1 == b.1) = false := by
        simp [hne]
      rw [pairLe, keyLe, strLe, hbeq]
      simp
      rw [strLe, hbeq, Bool.or_false]
    rw [insLe, insLe, hle]
    cases hk : keyLe p b
    · rw [if_neg (by simp), if_neg (by simp)]
      exact congrArg _ (ih (fun q hq => h q (List.mem_cons_of_mem b hq)))
    · rw [if_pos rfl, if_pos rfl]

theorem isortBy_pair_key (l : List (String × String))
    (h : (l.map Prod.fst).Nodup) : isortBy pairLe l = isortBy keyLe l := by
  induction l with
  | nil => rfl
  | cons p r ih =>
    rw [List.map_cons, List.nodup_cons] at h
    rw [isortBy, isortBy, ih h.2]
    apply insLe_pair_key
    intro q hq
    intro e
    exact h.1 (e ▸ List.mem_map_of_mem Prod.fst ((mem_isortBy keyLe q r).1 hq))

theorem verify_hmac_reduce (q : List (String × String)) (s r : String)
    (hck : containsKey q "hmac" = true) (hget : dictGet q "hmac" = some r) :
    verify_hmac q s =
      compare_digest (hmacSha256Hex s
        ("&".intercalate ((isortBy pairLe (q.filter (fun p => p.1 != "hmac"))).map
          (fun p => p.1 ++ "=" ++ p.2)))) r := by
  rw [verify_hmac, hck, hget]
  rfl

/-- C1: `verify_hmac` accepts exactly when the map carries an `hmac`
entry equal to the lowercase hex HMAC-SHA256, keyed by the secret, of
the other entries sorted by key and joined as `key=value` pairs with
`&`; in particular it rejects when `hmac` is absent.  (Distinct keys,
as a Python dict guarantees.) -/
theorem verify_hmac_iff_spec (query_params : List (String × String)) (secret : String)
    (hnd : (query_params.map Prod.fst).Nodup) :
    (verify_hmac query_params secret = true ↔
      dictGet query_params "hmac" =
        some (hmacSha256Hex secret (specHmacMessage query_params))) ∧
    (dictGet query_params "hmac" = none → verify_hmac query_params secret = false) := by
  have hsub : List.Sublist ((query_params.filter (fun p => p.1 != "hmac")).map Prod.fst)
      (query_params.map Prod.fst) := (List.filter_sublist _).map Prod.fst
  have hsort : isortBy pairLe (query_params.filter (fun p => p.1 != "hmac")) =
      isortBy keyLe (query_params.filter (fun p => p.1 != "hmac")) :=
    isortBy_pair_key _ (hnd.sublist hsub)
  constructor
  · by_cases hnone : dictGet query_params "hmac" = none
    · rw [verify_hmac, containsKey_eq_false _ _ hnone, hnone]
      simp
    · obtain ⟨received, hget⟩ := Option.ne_none_iff_exists'.1 hnone
      have hck : containsKey query_params "hmac" = true :=
        (containsKey_iff_isSome _ _).2 (by rw [hget]; rfl)
      rw [verify_hmac_reduce query_params secret received hck hget, hget,
          specHmacMessage, ← hsort, compare_digest, beq_iff_eq, Option.some_inj]
      exact eq_comm
  · intro hget
    rw [verify_hmac, containsKey_eq_false _ _ hget]
    simp

theorem verify_hmac_iff_spec_witness :
    (([("hmac", "x"), ("shop", "acme")].map Prod.fst).Nodup : Prop) ∧
    ((verify_hmac [("hmac", "x"), ("shop", "acme")] "sec" = true ↔
      dictGet [("hmac", "x"), ("shop", "acme")] "hmac" =
        some (hmacSha256Hex "sec" (specHmacMessage [("hmac", "x"), ("shop", "acme")]))) ∧
     (dictGet [("hmac", "x"), ("shop", "acme")] "hmac" = none →
      verify_hmac [("hmac", "x"), ("shop", "acme")] "sec" = false)) :=
  ⟨by decide, verify_hmac_iff_spec [("hmac", "x"), ("shop", "acme")] "sec" (by decide)⟩

/-! ## The trailing-newline acceptance of `is_valid_shop_hostname` -/

theorem leadsWith_append (pre s t : List Char) (h : leadsWith pre s = true) :
    leadsWith pre (s ++ t) = true := by
  induction pre generalizing s with
  | nil => rfl
  | cons a pre ih =>
    cases s with
    | nil => simp [leadsWith] at h
    | cons b s =>
      rw [leadsWith, Bool.and_eq_true] at h
      rw [List.cons_append, leadsWith, Bool.and_eq_true]
      exact ⟨h.1, ih s h.2⟩

theorem leadsWith_length (pre s : List Char) (h : leadsWith pre s = true) :
    pre.length ≤ s.length := by
  induction pre generalizing s with
  | nil => simp
  | cons a pre ih =>
    cases s with
    | nil => simp [leadsWith] at h
    | cons b s =>
      rw [leadsWith, Bool.and_eq_true] at h
      have := ih s h.2
      simp only [List.length_cons]
      omega

theorem litSuffixEnd_append_nl (s : List Char) (h : litSuffixEnd s = true)
    (hnl : Char.ofNat 10 ∉ s) : litSuffixEnd (s ++ [Char.ofNat 10]) = true := by
  rw [litSuffixEnd, Bool.and_eq_true] at h
  rw [litSuffixEnd, Bool.and_eq_true]
  refine ⟨leadsWith_append _ _ _ h.1, ?_⟩
  have hlen : suffixL.length ≤ s.length := leadsWith_length _ _ h.1
  rw [List.drop_append_eq_append_drop]
  have h0 : suffixL.length - s.length = 0 := by omega
  rw [h0, List.drop_zero]
  have hcases : s.drop suffixL.length = [] ∨ s.drop suffixL.length = [Char.ofNat 10] := by
    have h2 := h.2
    rw [dollarAnchor, Bool.or_eq_true] at h2
    rcases h2 with h2 | h2
    · exact Or.inl (by simpa using h2)
    · exact Or.inr (by simpa using h2)
  rcases hcases with he | he
  · rw [he]
    decide
  · exfalso
    have : Char.ofNat 10 ∈ s.drop suffixL.length := by
      rw [he]
      exact List.mem_singleton_self _
    exact hnl (List.mem_of_mem_drop this)

theorem starThenSuffix_append_nl (s : List Char) (h : starThenSuffix s = true)
    (hnl : Char.ofNat 10 ∉ s) : starThenSuffix (s ++ [Char.ofNat 10]) = true := by
  induction s with
  | nil => exact absurd h (by decide)
  | cons c r ih =>
    rw [starThenSuffix, Bool.or_eq_true] at h
    rw [List.cons_append, starThenSuffix, Bool.or_eq_true]
    rcases h with h | h
    · refine Or.inl ?_
      have := litSuffixEnd_append_nl (c :: r) h hnl
      rw [List.cons_append] at this
      exact this
    · rw [Bool.and_eq_true] at h
      refine Or.inr ?_
      rw [Bool.and_eq_true]
      exact ⟨h.1, ih h.2 (fun hm => hnl (List.mem_cons_of_mem c hm))⟩

/-- C10: the validator's regex anchor `$` also matches just before one
final newline, so every canonical (newline-free) accepted hostname is
still accepted with a trailing `\n` appended — a character outside the
alphanumeric-hyphen-dot alphabet — as witnessed concretely by
`"a.myshopify.com\n"`. -/
theorem hostname_validator_accepts_trailing_newline :
    is_valid_shop_hostname "a.myshopify.com\n" = true ∧
    ∀ h : String, is_valid_shop_hostname h = true → Char.ofNat 10 ∉ h.data →
      is_valid_shop_hostname (h ++ "\n") = true := by
  constructor
  · decide
  · intro h hv hnl
    rw [is_valid_shop_hostname] at hv
    rw [is_valid_shop_hostname, String.data_append]
    have hnd : ("\n" : String).data = [Char.ofNat 10] := by decide
    rw [hnd]
    cases hd : h.data with
    | nil =>
      rw [hd] at hv
      exact absurd hv (by decide)
    | cons c r =>
      rw [hd] at hv hnl
      rw [List.cons_append]
      have hv' : (isAlnumC c && starThenSuffix r) = true := hv
      have hg : (isAlnumC c && starThenSuffix (r ++ [Char.ofNat 10])) = true := by
        rw [Bool.and_eq_true] at hv' ⊢
        exact ⟨hv'.1, starThenSuffix_append_nl r hv'.2 (fun hm => hnl (List.mem_cons_of_mem c hm))⟩
      exact hg

theorem hostname_validator_accepts_trailing_newline_witness :
    is_valid_shop_hostname ("acme.myshopify.com" ++ "\n") = true :=
  hostname_validator_accepts_trailing_newline.2 "acme.myshopify.com" (by decide) (by decide)

/-! ## Reduction lemmas for the callback handler -/

theorem cb_after_hmac_results (c : CbInput) (st : AppState)
    (h1 : truthy c.clientId = true) (h2 : truthy c.clientSecret = true)
    (hok : (verify_hmac_raw_query c.rawQuery (c.clientSecret.getD "") ||
        verify_hmac c.params (c.clientSecret.getD "")) = true) :
    (auth_shopify_callback c st).1 =
        HttpResult.err 400 "Invalid or expired state. Try connecting again." ∨
    (auth_shopify_callback c st).1 = HttpResult.err 400 "Missing code" ∨
    (∃ e, (auth_shopify_callback c st).1 = HttpResult.err 502 ("Could not get token: " ++ e)) ∨
    (auth_shopify_callback c st).1 = HttpResult.redirect "/connect?connected=1" := by
  simp only [auth_shopify_callback, h1, h2, hok]
  have hred : ((decide ((true : Bool) = false) || decide ((true : Bool) = false)) = true) = False := by
    simp
  simp only [hred, if_false, Bool.true_eq_false, if_neg, ite_false]
  have hg2 : ((decide False || decide False) = true) = False := by simp
  simp only [hg2, if_false]
  cases hg : dictGet c.params "state" with
  | none => simp
  | some t =>
    simp only [hg, dictPop]
    cases hp : dictGet st.oauthStates t with
    | none => simp
    | some shop =>
      simp only [hp]
      by_cases hsh : (decide (shop = "") ||
          !(shop == normalize_shop ((dictGet c.params "shop").getD ""))) = true
      · simp [hsh]
      · rw [if_neg hsh]
        cases hc : dictGet c.params "code" with
        | none => simp
        | some code =>
          simp only [hc]
          by_cases hce : code = ""
          · simp [hce]
          · rw [if_neg hce]
            cases hx : c.exch shop code with
            | error e =>
              refine Or.inr (Or.inr (Or.inl ⟨e, ?_⟩))
              rfl
            | ok tok => simp

theorem cb_states_after_pop (c : CbInput) (st : AppState) (t : String)
    (h1 : truthy c.clientId = true) (h2 : truthy c.clientSecret = true)
    (hok : (verify_hmac_raw_query c.rawQuery (c.clientSecret.getD "") ||
        verify_hmac c.params (c.clientSecret.getD "")) = true)
    (hg : dictGet c.params "state" = some t) :
    (auth_shopify_callback c st).2.oauthStates =
      st.oauthStates.filter (fun p => p.1 != t) := by
  simp only [auth_shopify_callback, h1, h2, hok]
  have hred : ((decide ((true : Bool) = false) || decide ((true : Bool) = false)) = true) = False := by
    simp
  simp only [hred, if_false, Bool.true_eq_false, if_neg, ite_false]
  have hg2 : ((decide False || decide False) = true) = False := by simp
  simp only [hg2, if_false, hg, dictPop]
  cases hp : dictGet st.oauthStates t with
  | none => rfl
  | some shop =>
    simp only []
    by_cases hsh : (decide (shop = "") ||
        !(shop == normalize_shop ((dictGet c.params "shop").getD ""))) = true
    · simp [hsh]
    · rw [if_neg hsh]
      cases hc : dictGet c.params "code" with
      | none => rfl
      | some code =>
        simp only []
        by_cases hce : code = ""
        · simp [hce]
        · rw [if_neg hce]
          cases hx : c.exch shop code with
          | error e => rfl
          | ok tok => rfl

theorem cb_preserves_state_absence (c : CbInput) (st : AppState) (t : String)
    (h : dictGet st.oauthStates t = none) :
    dictGet (auth_shopify_callback c st).2.oauthStates t = none := by
  by_cases hcfg : (truthy c.clientId = false || truthy c.clientSecret = false) = true
  · simp only [auth_shopify_callback, if_pos hcfg]
    exact h
  · rw [auth_shopify_callback, if_neg hcfg]
    by_cases hok : (verify_hmac_raw_query c.rawQuery (c.clientSecret.getD "") ||
        verify_hmac c.params (c.clientSecret.getD "")) = false
    · rw [if_pos hok]
      exact h
    · rw [if_neg hok]
      cases hg : dictGet c.params "state" with
      | none =>
        cases hp : dictGet st.oauthStates "" with
        | none =>
          simp only [hg]
          cases hq : (none : Option String) with
          | none => exact h
          | some shop => cases hq
        | some shop =>
          simp only [hg]
          exact h
      | some u =>
        simp only [hg, dictPop]
        have hfil : dictGet (st.oauthStates.filter (fun p => p.1 != u)) t = none :=
          dictGet_filter_none _ _ _ h
        cases hp : dictGet st.oauthStates u with
        | none => exact hfil
        | some shop =>
          simp only []
          by_cases hsh : (decide (shop = "") ||
              !(shop == normalize_shop ((dictGet c.params "shop").getD ""))) = true
          · rw [if_pos hsh]
            exact hfil
          · rw [if_neg hsh]
            cases hc : dictGet c.params "code" with
            | none => exact hfil
            | some code =>
              simp only []
              by_cases hce : code = ""
              · rw [if_pos hce]
                exact hfil
              · rw [if_neg hce]
                cases hx : c.exch shop code with
                | error e => exact hfil
                | ok tok => exact hfil

theorem cb_rejected_of_state_absent (c : CbInput) (st : AppState) (t : String)
    (hg : dictGet c.params "state" = some t)
    (habs : dictGet st.oauthStates t = none) :
    (auth_shopify_callback c st).1 = HttpResult.err 503 "Shopify app not configured." ∨
    (auth_shopify_callback c st).1 = HttpResult.err 400 "Invalid HMAC" ∨
    (auth_shopify_callback c st).1 =
      HttpResult.err 400 "Invalid or expired state. Try connecting again." := by
  by_cases hcfg : (truthy c.clientId = false || truthy c.clientSecret = false) = true
  · rw [auth_shopify_callback, if_pos hcfg]
    exact Or.inl rfl
  · rw [auth_shopify_callback, if_neg hcfg]
    by_cases hok : (verify_hmac_raw_query c.rawQuery (c.clientSecret.getD "") ||
        verify_hmac c.params (c.clientSecret.getD "")) = false
    · rw [if_pos hok]
      exact Or.inr (Or.inl rfl)
    · rw [if_neg hok]
      simp only [hg, dictPop, habs]
      simp

theorem runCbs_preserves_state_absence (cs : List CbInput) (st : AppState) (t : String)
    (h : dictGet st.oauthStates t = none) :
    dictGet (runCbs cs st).oauthStates t = none := by
  induction cs generalizing st with
  | nil => exact h
  | cons c cs ih =>
    exact ih (auth_shopify_callback c st).2 (cb_preserves_state_absence c st t h)

/-- C3: with the app configured, the callback is rejected with the 400
invalid-signature error exactly when both the raw-query and the
reconstructed-map verifications fail; when either succeeds, processing
continues past the HMAC stage. -/
theorem callback_hmac_gate (c : CbInput) (st : AppState)
    (h1 : truthy c.clientId = true) (h2 : truthy c.clientSecret = true) :
    ((auth_shopify_callback c st).1 = HttpResult.err 400 "Invalid HMAC" ↔
      (verify_hmac_raw_query c.rawQuery (c.clientSecret.getD "") ||
        verify_hmac c.params (c.clientSecret.getD "")) = false) := by
  cases hok : verify_hmac_raw_query c.rawQuery (c.clientSecret.getD "") ||
      verify_hmac c.params (c.clientSecret.getD "")
  · have hres : (auth_shopify_callback c st).1 = HttpResult.err 400 "Invalid HMAC" := by
      simp only [auth_shopify_callback, h1, h2, hok]
      simp
    simp [hres]
  · have hres := cb_after_hmac_results c st h1 h2 hok
    constructor
    · intro h
      exfalso
      rcases hres with hr | hr | ⟨e, hr⟩ | hr <;> rw [h] at hr <;> simp at hr
    · intro h
      exact absurd h (by simp)

theorem callback_hmac_gate_witness :
    ((auth_shopify_callback mismatchCallback ⟨[], []⟩).1 =
        HttpResult.err 400 "Invalid HMAC" ↔
      (verify_hmac_raw_query mismatchCallback.rawQuery
          (mismatchCallback.clientSecret.getD "") ||
        verify_hmac mismatchCallback.params
          (mismatchCallback.clientSecret.getD "")) = false) :=
  callback_hmac_gate mismatchCallback ⟨[], []⟩ (by decide) (by decide)

/-- C4: once a callback request with valid configuration and signature
has consumed state token `t` (popping it from the registry), `t` is
absent from the registry afterwards — regardless of how the consuming
request ended — and every later callback request presenting `t` fails
at or before the state check. -/
theorem consumed_state_never_reaccepted (c0 : CbInput) (st0 : AppState) (t : String)
    (h1 : truthy c0.clientId = true) (h2 : truthy c0.clientSecret = true)
    (hok : (verify_hmac_raw_query c0.rawQuery (c0.clientSecret.getD "") ||
        verify_hmac c0.params (c0.clientSecret.getD "")) = true)
    (hg : dictGet c0.params "state" = some t) :
    dictGet (auth_shopify_callback c0 st0).2.oauthStates t = none ∧
    ∀ (pre : List CbInput) (c : CbInput),
      dictGet c.params "state" = some t →
      ((auth_shopify_callback c (runCbs pre (auth_shopify_callback c0 st0).2)).1 =
          HttpResult.err 503 "Shopify app not configured." ∨
       (auth_shopify_callback c (runCbs pre (auth_shopify_callback c0 st0).2)).1 =
          HttpResult.err 400 "Invalid HMAC" ∨
       (auth_shopify_callback c (runCbs pre (auth_shopify_callback c0 st0).2)).1 =
          HttpResult.err 400 "Invalid or expired state. Try connecting again.") := by
  have h0 : dictGet (auth_shopify_callback c0 st0).2.oauthStates t = none := by
    rw [cb_states_after_pop c0 st0 t h1 h2 hok hg]
    exact dictGet_filterOut_self _ _
  refine ⟨h0, ?_⟩
  intro pre c hgc
  exact cb_rejected_of_state_absent c _ t hgc
    (runCbs_preserves_state_absence pre _ t h0)

set_option maxRecDepth 40000 in
theorem consumed_state_never_reaccepted_witness :
    dictGet (auth_shopify_callback (sampleCallback (fun _ _ => Except.ok "TOK"))
      ⟨[("tok", "acme.myshopify.com")], []⟩).2.oauthStates "tok" = none ∧
    ((auth_shopify_callback (sampleCallback (fun _ _ => Except.ok "TOK"))
        (runCbs [] (auth_shopify_callback (sampleCallback (fun _ _ => Except.ok "TOK"))
          ⟨[("tok", "acme.myshopify.com")], []⟩).2)).1 =
        HttpResult.err 503 "Shopify app not configured." ∨
     (auth_shopify_callback (sampleCallback (fun _ _ => Except.ok "TOK"))
        (runCbs [] (auth_shopify_callback (sampleCallback (fun _ _ => Except.ok "TOK"))
          ⟨[("tok", "acme.myshopify.com")], []⟩).2)).1 =
        HttpResult.err 400 "Invalid HMAC" ∨
     (auth_shopify_callback (sampleCallback (fun _ _ => Except.ok "TOK"))
        (runCbs [] (auth_shopify_callback (sampleCallback (fun _ _ => Except.ok "TOK"))
          ⟨[("tok", "acme.myshopify.com")], []⟩).2)).1 =
        HttpResult.err 400 "Invalid or expired state. Try connecting again.") := by
  have h := consumed_state_never_reaccepted (sampleCallback (fun _ _ => Except.ok "TOK"))
    ⟨[("tok", "acme.myshopify.com")], []⟩ "tok" (by decide) (by decide) (by decide) (by decide)
  exact ⟨h.1, h.2 [] (sampleCallback (fun _ _ => Except.ok "TOK")) (by decide)⟩

/-- C6 (amended): a valid-signature callback whose consumed state is
bound to a different shop than the callback's normalized `shop`
parameter is rejected with status 400, but with the same generic
`"Invalid or expired state. Try connecting again."` message used for
unknown states — not a distinct shop-mismatch error — and neither calls
the exchange nor persists any credential. -/
theorem shop_mismatch_rejected_generic (c : CbInput) (st : AppState) (t shopA : String)
    (h1 : truthy c.clientId = true) (h2 : truthy c.clientSecret = true)
    (hok : (verify_hmac_raw_query c.rawQuery (c.clientSecret.getD "") ||
        verify_hmac c.params (c.clientSecret.getD "")) = true)
    (hg : dictGet c.params "state" = some t)
    (hb : dictGet st.oauthStates t = some shopA)
    (hne : shopA ≠ normalize_shop ((dictGet c.params "shop").getD "")) :
    (auth_shopify_callback c st).1 =
      HttpResult.err 400 "Invalid or expired state. Try connecting again." ∧
    (auth_shopify_callback c st).2.stores = st.stores ∧
    ∀ ex, auth_shopify_callback { c with exch := ex } st = auth_shopify_callback c st := by
  have hbeq : (shopA == normalize_shop ((dictGet c.params "shop").getD "")) = false := by
    simp [hne]
  have hkey : ∀ ex : String → String → Except String String,
      auth_shopify_callback { c with exch := ex } st =
        (HttpResult.err 400 "Invalid or expired state. Try connecting again.",
         ⟨st.oauthStates.filter (fun p => p.1 != t), st.stores⟩) := by
    intro ex
    simp only [auth_shopify_callback, h1, h2, hok]
    have hred : ((decide ((true : Bool) = false) || decide ((true : Bool) = false)) = true) = False := by
      simp
    simp only [hred, if_false, Bool.true_eq_false, if_neg, ite_false]
    have hg2 : ((decide False || decide False) = true) = False := by simp
    simp only [hg2, if_false, hg, dictPop, hb]
    simp [hbeq]
  have hc : auth_shopify_callback c st =
      (HttpResult.err 400 "Invalid or expired state. Try connecting again.",
       ⟨st.oauthStates.filter (fun p => p.1 != t), st.stores⟩) := by
    have := hkey c.exch
    exact this
  refine ⟨by rw [hc], by rw [hc], ?_⟩
  intro ex
  rw [hkey ex, hc]

set_option maxRecDepth 40000 in
theorem shop_mismatch_error_is_generic :
    (auth_shopify_callback mismatchCallback ⟨[("tok", "a.myshopify.com")], []⟩).1 =
      HttpResult.err 400 "Invalid or expired state. Try connecting again." ∧
    (auth_shopify_callback mismatchCallback ⟨[], []⟩).1 =
      HttpResult.err 400 "Invalid or expired state. Try connecting again." := by
  constructor
  · decide
  · decide

set_option maxRecDepth 40000 in
theorem shop_mismatch_rejected_generic_witness :
    (auth_shopify_callback mismatchCallback ⟨[("tok", "a.myshopify.com")], []⟩).1 =
      HttpResult.err 400 "Invalid or expired state. Try connecting again." ∧
    (auth_shopify_callback mismatchCallback ⟨[("tok", "a.myshopify.com")], []⟩).2.stores =
      (⟨[("tok", "a.myshopify.com")], []⟩ : AppState).stores ∧
    auth_shopify_callback { mismatchCallback with exch := fun _ _ => Except.error "E" }
        ⟨[("tok", "a.myshopify.com")], []⟩ =
      auth_shopify_callback mismatchCallback ⟨[("tok", "a.myshopify.com")], []⟩ := by
  have h := shop_mismatch_rejected_generic mismatchCallback
    ⟨[("tok", "a.myshopify.com")], []⟩ "tok" "a.myshopify.com"
    (by decide) (by decide) (by decide) (by decide) (by decide) (by decide)
  exact ⟨h.1, h.2.1, h.2.2 (fun _ _ => Except.error "E")⟩

/-- C7: when the token exchange fails — non-2xx upstream status,
malformed body, or missing `access_token` — the callback answers 502
with the exception text and the credential store is left unchanged. -/
theorem exchange_failure_yields_502_no_persist (c : CbInput) (st : AppState)
    (t shop code : String) (r : HttpResponse)
    (h1 : truthy c.clientId = true) (h2 : truthy c.clientSecret = true)
    (hok : (verify_hmac_raw_query c.rawQuery (c.clientSecret.getD "") ||
        verify_hmac c.params (c.clientSecret.getD "")) = true)
    (hg : dictGet c.params "state" = some t)
    (hb : dictGet st.oauthStates t = some shop)
    (hsne : shop ≠ "")
    (hinc : shop = normalize_shop ((dictGet c.params "shop").getD ""))
    (hc : dictGet c.params "code" = some code)
    (hcne : code ≠ "")
    (hx : c.exch shop code = exchange_code_for_token r)
    (hfail : r.status < 200 ∨ 300 ≤ r.status ∨ r.jsonBody = none ∨
      dictGet (r.jsonBody.getD []) "access_token" = none) :
    ∃ e, exchange_code_for_token r = Except.error e ∧
      (auth_shopify_callback c st).1 = HttpResult.err 502 ("Could not get token: " ++ e) ∧
      (auth_shopify_callback c st).2.stores = st.stores := by
  obtain ⟨e, he⟩ : ∃ e, exchange_code_for_token r = Except.error e := by
    rw [exchange_code_for_token]
    by_cases hs : r.status < 200 ∨ 300 ≤ r.status
    · rw [if_pos hs]
      exact ⟨_, rfl⟩
    · rw [if_neg hs]
      cases hj : r.jsonBody with
      | none => exact ⟨_, rfl⟩
      | some data =>
        simp only []
        rcases hfail with hf | hf | hf | hf
        · exact absurd (Or.inl hf) hs
        · exact absurd (Or.inr hf) hs
        · rw [hj] at hf
          cases hf
        · rw [hj] at hf
          simp only [Option.getD_some] at hf
          rw [hf]
          exact ⟨_, rfl⟩
  refine ⟨e, he, ?_⟩
  have hbeq : (shop == normalize_shop ((dictGet c.params "shop").getD "")) = true := by
    rw [← hinc]
    simp
  have hcond : (decide (shop = "") ||
      !(shop == normalize_shop ((dictGet c.params "shop").getD ""))) = false := by
    rw [hbeq]
    simp [hsne]
  have hres : auth_shopify_callback c st =
      (HttpResult.err 502 ("Could not get token: " ++ e),
       ⟨st.oauthStates.filter (fun p => p.1 != t), st.stores⟩) := by
    simp only [auth_shopify_callback, h1, h2, hok]
    have hred : ((decide ((true : Bool) = false) || decide ((true : Bool) = false)) = true) = False := by
      simp
    simp only [hred, if_false, Bool.true_eq_false, if_neg, ite_false]
    have hg2 : ((decide False || decide False) = true) = False := by simp
    simp only [hg2, if_false, hg, dictPop, hb]
    rw [if_neg (by rw [hcond]; simp)]
    simp only [hc]
    rw [if_neg hcne]
    rw [hx, he]
  rw [hres]
  exact ⟨rfl, rfl⟩

set_option maxRecDepth 40000 in
theorem exchange_failure_yields_502_no_persist_witness :
    ∃ e, exchange_code_for_token ⟨500, none⟩ = Except.error e ∧
      (auth_shopify_callback
        (sampleCallback (fun _ _ => exchange_code_for_token ⟨500, none⟩))
        ⟨[("tok", "acme.myshopify.com")], []⟩).1 =
          HttpResult.err 502 ("Could not get token: " ++ e) ∧
      (auth_shopify_callback
        (sampleCallback (fun _ _ => exchange_code_for_token ⟨500, none⟩))
        ⟨[("tok", "acme.myshopify.com")], []⟩).2.stores =
        (⟨[("tok", "acme.myshopify.com")], []⟩ : AppState).stores :=
  exchange_failure_yields_502_no_persist
    (sampleCallback (fun _ _ => exchange_code_for_token ⟨500, none⟩))
    ⟨[("tok", "acme.myshopify.com")], []⟩
    "tok" "acme.myshopify.com" "c0de" ⟨500, none⟩
    (by decide) (by decide) (by decide) (by decide) (by decide) (by decide)
    (by decide) (by decide) (by decide) rfl (by decide)

/-! ## String lemmas for normalization -/

theorem dropWhile_eq_self_of_head (p : Char → Bool) (s : List Char)
    (h : ∀ ch, s.head? = some ch → p ch = false) : s.dropWhile p = s := by
  cases s with
  | nil => rfl
  | cons a l =>
    rw [List.dropWhile_cons, if_neg]
    rw [h a rfl]
    simp

theorem trimL_eq_self (s : List Char)
    (hh : ∀ ch, s.head? = some ch → isSpaceC ch = false)
    (hl : ∀ ch, s.getLast? = some ch → isSpaceC ch = false) : trimL s = s := by
  rw [trimL, dropWhile_eq_self_of_head _ s hh]
  rw [dropWhile_eq_self_of_head _ s.reverse (by
    intro ch hch
    rw [List.head?_reverse] at hch
    exact hl ch hch)]
  exact List.reverse_reverse s

theorem rstripC_eq_self (x : Char) (s : List Char)
    (h : ∀ ch, s.getLast? = some ch → (ch == x) = false) : rstripC x s = s := by
  rw [rstripC, dropWhile_eq_self_of_head _ s.reverse (by
    intro ch hch
    rw [List.head?_reverse] at hch
    exact h ch hch)]
  exact List.reverse_reverse s

theorem leadsWith_self_append (l t : List Char) : leadsWith l (l ++ t) = true := by
  induction l with
  | nil => rfl
  | cons a l ih =>
    rw [List.cons_append, leadsWith, Bool.and_eq_true]
    exact ⟨by simp, ih⟩

theorem containsL_append_self (pat c : List Char) (hpat : pat ≠ []) :
    containsL pat (c ++ pat) = true := by
  induction c with
  | nil =>
    rw [List.nil_append]
    cases pat with
    | nil => exact absurd rfl hpat
    | cons p ps =>
      rw [containsL, Bool.or_eq_true]
      refine Or.inl ?_
      have := leadsWith_self_append (p :: ps) []
      rwa [List.append_nil] at this
  | cons x c' ih =>
    rw [List.cons_append, containsL, Bool.or_eq_true]
    exact Or.inr ih

theorem toLowerL_eq_self_of (l : List Char) (h : ∀ ch ∈ l, asciiLower ch = ch) :
    toLowerL l = l := by
  induction l with
  | nil => rfl
  | cons a l ih =>
    rw [toLowerL, List.map_cons, h a (List.mem_cons_self a l)]
    rw [show List.map asciiLower l = toLowerL l from rfl,
      ih (fun ch hch => h ch (List.mem_cons_of_mem a hch))]

theorem mem_of_getLast?_eq_some (l : List Char) (a : Char) (h : l.getLast? = some a) :
    a ∈ l := by
  induction l with
  | nil => cases h
  | cons x r ih =>
    cases r with
    | nil =>
      simp only [List.getLast?_singleton, Option.some_inj] at h
      simp [h]
    | cons y r' =>
      rw [List.getLast?_cons_cons] at h
      exact List.mem_cons_of_mem x (ih h)

theorem leadsWith_iff_take (pre : List Char) (s : List Char) :
    leadsWith pre s = true ↔ s.take pre.length = pre := by
  induction pre generalizing s with
  | nil => simp [leadsWith]
  | cons a pre ih =>
    cases s with
    | nil => simp [leadsWith]
    | cons b s =>
      rw [leadsWith, Bool.and_eq_true, List.length_cons, List.take_succ_cons,
        List.cons_eq_cons, ih s, beq_iff_eq,
        show (a = b) = (b = a) from propext eq_comm]

theorem contains_of_leadsWith (pat s : List Char) (hs : s ≠ [])
    (h : leadsWith pat s = true) : containsL pat s = true := by
  cases s with
  | nil => exact absurd rfl hs
  | cons c r =>
    rw [containsL, Bool.or_eq_true]
    exact Or.inl h

theorem no_straddle (pat c : List Char) (_hpat : pat ≠ []) (hc : c ≠ [])
    (hcon : containsL pat c = false)
    (hbf : ∀ k, k < pat.length → 1 ≤ k → pat.take k ≠ pat.drop (pat.length - k)) :
    leadsWith pat (c ++ pat) = false := by
  by_contra hlw
  rw [Bool.not_eq_false] at hlw
  have htake : (c ++ pat).take pat.length = pat := (leadsWith_iff_take pat _).1 hlw
  by_cases hlen : pat.length ≤ c.length
  · rw [List.take_append_eq_append_take, Nat.sub_eq_zero_of_le hlen,
      List.take_zero, List.append_nil] at htake
    have hl2 : leadsWith pat c = true := (leadsWith_iff_take pat c).2 htake
    rw [contains_of_leadsWith pat c hc hl2] at hcon
    cases hcon
  · push_neg at hlen
    rw [List.take_append_eq_append_take,
      List.take_of_length_le (le_of_lt hlen)] at htake
    set k := pat.length - c.length with hk
    have hc1 : 1 ≤ c.length := by
      cases c with
      | nil => exact absurd rfl hc
      | cons _ _ => simp
    have hk1 : 1 ≤ k := by omega
    have hklt : k < pat.length := by omega
    have hdrop : pat.drop (pat.length - k) = pat.take k := by
      have hlenc : pat.length - k = c.length := by omega
      rw [hlenc]
      conv_lhs => rw [← htake]
      rw [List.drop_left]
    exact hbf k hklt hk1 hdrop.symm

theorem beforeFirstL_append (pat c : List Char) (hpat : pat ≠ [])
    (hcon : containsL pat c = false)
    (hbf : ∀ k, k < pat.length → 1 ≤ k → pat.take k ≠ pat.drop (pat.length - k)) :
    beforeFirstL pat (c ++ pat) = c := by
  induction c with
  | nil =>
    rw [List.nil_append]
    cases pat with
    | nil => exact absurd rfl hpat
    | cons p ps =>
      rw [beforeFirstL, if_pos]
      have := leadsWith_self_append (p :: ps) []
      rwa [List.append_nil] at this
  | cons x c' ih =>
    have hcon2 := hcon
    rw [containsL, Bool.or_eq_false_iff] at hcon2
    rw [List.cons_append, beforeFirstL, if_neg, List.cons.injEq]
    · exact ⟨rfl, ih hcon2.2⟩
    · have hns := no_straddle pat (x :: c') hpat (by simp) hcon hbf
      rw [List.cons_append] at hns
      rw [hns]
      simp

theorem splitOnF_no_occ (pat : List Char) (s : List Char)
    (hcon : containsL pat s = false) :
    ∀ (fuel : Nat) (acc : List Char), splitOnF pat fuel s acc = [acc.reverse ++ s] := by
  induction s with
  | nil =>
    intro fuel acc
    cases fuel <;> simp [splitOnF]
  | cons c r ih =>
    intro fuel acc
    rw [containsL, Bool.or_eq_false_iff] at hcon
    cases fuel with
    | zero => rfl
    | succ fuel =>
      rw [splitOnF, if_neg]
      · rw [ih hcon.2 fuel (c :: acc)]
        simp
      · intro hand
        rw [hcon.1] at hand
        cases hand.1

theorem afterLastL_no_occ (pat s : List Char) (h : containsL pat s = false) :
    afterLastL pat s = s := by
  rw [afterLastL, splitOnL, splitOnF_no_occ pat s h s.length []]
  simp [List.getLastD]

theorem mem_of_head?_eq_some (l : List Char) (a : Char) (h : l.head? = some a) :
    a ∈ l := by
  cases l with
  | nil => cases h
  | cons x r =>
    rw [List.head?_cons] at h
    injection h with he
    exact he ▸ List.mem_cons_self x r

theorem containsL_eq_false_of_head_notin (p0 : Char) (w s : List Char)
    (h : ∀ ch ∈ s, ch ≠ p0) : containsL (p0 :: w) s = false := by
  induction s with
  | nil => rfl
  | cons c r ih =>
    rw [containsL, Bool.or_eq_false_iff]
    constructor
    · rw [leadsWith]
      have hbeq : (p0 == c) = false := by
        have hc := h c (List.mem_cons_self c r)
        cases hx : p0 == c
        · rfl
        · rw [beq_iff_eq] at hx
          exact absurd hx.symm hc
      rw [hbeq]
      rfl
    · exact ih (fun ch hch => h ch (List.mem_cons_of_mem c hch))

theorem canonChar_ranges (ch : Char) (h : canonChar ch = true) :
    (97 ≤ ch.toNat ∧ ch.toNat ≤ 122) ∨ (48 ≤ ch.toNat ∧ ch.toNat ≤ 57) ∨
      ch.toNat = 45 := by
  rw [canonChar] at h
  simp only [Bool.or_eq_true, Bool.and_eq_true, decide_eq_true_eq, beq_iff_eq] at h
  rcases h with (h | h) | h
  · exact Or.inl h
  · exact Or.inr (Or.inl h)
  · refine Or.inr (Or.inr ?_)
    rw [h]
    rfl

theorem canonChar_not_space (ch : Char) (h : canonChar ch = true) :
    isSpaceC ch = false := by
  rcases canonChar_ranges ch h with h | h | h <;>
  · rw [isSpaceC, decide_eq_false_iff_not]
    omega

theorem canonChar_lower (ch : Char) (h : canonChar ch = true) :
    asciiLower ch = ch := by
  rcases canonChar_ranges ch h with h | h | h <;>
  · rw [asciiLower, if_neg]
    omega

theorem canonChar_ne_dot (ch : Char) (h : canonChar ch = true) : ch ≠ '.' := by
  intro he
  subst he
  exact absurd h (by decide)

theorem canonChar_ne_slash (ch : Char) (h : canonChar ch = true) : ch ≠ '/' := by
  intro he
  subst he
  exact absurd h (by decide)

theorem canonChar_beq_slash (ch : Char) (h : canonChar ch = true) :
    (ch == '/') = false := by
  cases hx : ch == '/'
  · rfl
  · rw [beq_iff_eq] at hx
    exact absurd hx (canonChar_ne_slash ch h)

theorem normalize_fixed_point (r : String) (c : List Char)
    (hdec : r.data = c ++ suffixL)
    (hnosuf : containsL suffixL c = false)
    (hslash : containsL dblSlashL c = false)
    (hlast : ∀ ch, c.getLast? = some ch → (ch == '/') = false)
    (hhead : ∀ ch, c.head? = some ch → isSpaceC ch = false)
    (hlower : toLowerL c = c) :
    normalize_shop r = r := by
  have hbf : ∀ k, k < suffixL.length → 1 ≤ k →
      suffixL.take k ≠ suffixL.drop (suffixL.length - k) := by decide
  have hsfxne : suffixL ≠ [] := by decide
  have hh2 : ∀ ch, (c ++ suffixL).head? = some ch → isSpaceC ch = false := by
    intro ch hch
    cases c with
    | nil =>
      rw [List.nil_append] at hch
      rw [show suffixL.head? = some '.' from by decide] at hch
      injection hch with he
      rw [← he]
      decide
    | cons a c' =>
      rw [List.cons_append, List.head?_cons] at hch
      injection hch with he
      rw [← he]
      exact hhead a rfl
  have hl2 : ∀ ch, (c ++ suffixL).getLast? = some ch → isSpaceC ch = false := by
    intro ch hch
    rw [List.getLast?_append, show suffixL.getLast? = some 'm' from by decide] at hch
    have hch2 : some 'm' = some ch := hch
    injection hch2 with he
    rw [← he]
    decide
  have htrim : trimL (c ++ suffixL) = c ++ suffixL := trimL_eq_self _ hh2 hl2
  have hlow : toLowerL (c ++ suffixL) = c ++ suffixL := by
    rw [toLowerL, List.map_append,
      show List.map asciiLower c = toLowerL c from rfl, hlower,
      show List.map asciiLower suffixL = suffixL from by decide]
  have hls : suffixL.length = 14 := by decide
  have hne : c ++ suffixL ≠ [] := by
    intro h0
    have hlen := congrArg List.length h0
    rw [List.length_append] at hlen
    simp only [List.length_nil] at hlen
    omega
  have hcont : containsL suffixL (c ++ suffixL) = true :=
    containsL_append_self suffixL c hsfxne
  have hbef : beforeFirstL suffixL (c ++ suffixL) = c :=
    beforeFirstL_append suffixL c hsfxne hnosuf hbf
  have haft : afterLastL dblSlashL c = c := afterLastL_no_occ dblSlashL c hslash
  have hrst : rstripC '/' c = c := rstripC_eq_self '/' c hlast
  simp only [normalize_shop, hdec, htrim, hlow]
  rw [if_neg hne, if_pos hcont, hbef, haft, hrst]
  apply String.ext
  rw [hdec]

theorem normalize_shop_not_idempotent :
    normalize_shop (normalize_shop "abc/") ≠ normalize_shop "abc/" := by decide

/-- C5 (amended): `normalize_shop` is idempotent on an input `x`
whenever its normalization is empty, or decomposes as
`label ++ ".myshopify.com"` with an ASCII label that does not contain
the suffix or `"//"`, does not end in `/`, does not start with
whitespace, and is already lowercase; in particular normalizing an
already-canonical hostname (nonempty lowercase alphanumeric-or-hyphen
label followed by the suffix) yields itself.  Unrestricted idempotency
fails, e.g. at `"abc/"`.  The ASCII bound on the label is what makes
the ASCII model of `str.lower` coincide with Python on these inputs;
the Lean proof itself does not consume it. -/
theorem normalize_shop_idem_amended :
    (∀ x : String, normalize_shop x = "" →
      normalize_shop (normalize_shop x) = normalize_shop x) ∧
    (∀ (x : String) (c : List Char),
      (normalize_shop x).data = c ++ suffixL →
      (∀ ch ∈ c, ch.toNat ≤ 127) →
      containsL suffixL c = false →
      containsL dblSlashL c = false →
      c.getLast? ≠ some '/' →
      (c.head?.elim true (fun ch => !(isSpaceC ch))) = true →
      toLowerL c = c →
      normalize_shop (normalize_shop x) = normalize_shop x) ∧
    (∀ (h : String) (l : List Char),
      h.data = l ++ suffixL → l ≠ [] → (∀ ch ∈ l, canonChar ch = true) →
      normalize_shop h = h) := by
  refine ⟨?_, ?_, ?_⟩
  · intro x hx
    rw [hx]
    decide
  · intro x c hdec _hascii hnosuf hslash hlast hhead hlower
    have hlast' : ∀ ch, c.getLast? = some ch → (ch == '/') = false := by
      intro ch hch
      cases hx : ch == '/'
      · rfl
      · rw [beq_iff_eq] at hx
        subst hx
        exact absurd hch hlast
    have hhead' : ∀ ch, c.head? = some ch → isSpaceC ch = false := by
      intro ch hch
      rw [hch] at hhead
      have hb : (!(isSpaceC ch)) = true := hhead
      cases hx : isSpaceC ch
      · rfl
      · rw [hx] at hb
        exact absurd hb (by decide)
    exact normalize_fixed_point (normalize_shop x) c hdec hnosuf hslash hlast' hhead' hlower
  · intro h l hdec _hlne hcanon
    have hsfx : suffixL = '.' :: "myshopify.com".data := by decide
    have hnosuf : containsL suffixL l = false := by
      rw [hsfx]
      exact containsL_eq_false_of_head_notin '.' _ l
        (fun ch hch => canonChar_ne_dot ch (hcanon ch hch))
    have hdbl : dblSlashL = '/' :: "/".data := by decide
    have hslash : containsL dblSlashL l = false := by
      rw [hdbl]
      exact containsL_eq_false_of_head_notin '/' _ l
        (fun ch hch => canonChar_ne_slash ch (hcanon ch hch))
    have hlast : ∀ ch, l.getLast? = some ch → (ch == '/') = false := by
      intro ch hch
      exact canonChar_beq_slash ch (hcanon ch (mem_of_getLast?_eq_some l ch hch))
    have hhead : ∀ ch, l.head? = some ch → isSpaceC ch = false := by
      intro ch hch
      exact canonChar_not_space ch (hcanon ch (mem_of_head?_eq_some l ch hch))
    have hlower : toLowerL l = l :=
      toLowerL_eq_self_of l (fun ch hch => canonChar_lower ch (hcanon ch hch))
    exact normalize_fixed_point h l hdec hnosuf hslash hlast hhead hlower

theorem normalize_shop_idem_amended_witness :
    normalize_shop (normalize_shop "") = normalize_shop "" ∧
    normalize_shop (normalize_shop "acme") = normalize_shop "acme" ∧
    normalize_shop "acme.myshopify.com" = "acme.myshopify.com" :=
  ⟨normalize_shop_idem_amended.1 "" (by decide),
   normalize_shop_idem_amended.2.1 "acme" "acme".data (by decide) (by decide)
     (by decide) (by decide) (by decide) (by decide) (by decide),
   normalize_shop_idem_amended.2.2 "acme.myshopify.com" "acme".data (by decide)
     (by decide) (by decide)⟩
